import Mathlib

/-!
# Verification of the markthree block editor core

A shallow embedding of the repository's markdown ⇄ block-list conversion
engine (`src/lib/markdown/parser.ts`: `parseMarkdownToBlocks`,
`blocksToMarkdown`) and of the block-document state machine
(`src/hooks/useEditor`: `updateBlock`, `addBlock`, `removeBlock`,
`mergeWithPrevious`, `moveBlock`, `resetEditor`, `markAsSaved`,
`setActiveBlock`), together with proofs and refutations of the spec's
testable properties.

Strings are JavaScript strings; JS string methods are modelled by
executable functions over `String.data` (`List Char`).  The third-party
block tokenizer (`marked.lexer`) is not part of the repository; it is
modelled from the spec's token table ("a standard block-level markdown
tokenizer") as a line-based lexer covering the grammar subset the editor
emits and consumes.  Fresh `nanoid()` identifiers are modelled by an
explicit id supply `Nat → String`; every theorem about parsing quantifies
over the supply, since ids are opaque.
-/

/-! ## JS string primitives, modelled over `List Char` -/

/-- Model of `String.prototype.startsWith`. -/
def jsStartsWith (s pre : String) : Bool :=
  pre.data.isPrefixOf s.data

/-- Model of `String.prototype.endsWith`. -/
def jsEndsWith (s suf : String) : Bool :=
  suf.data.isSuffixOf s.data

/-- Model of `s.substring(n)` / dropping `n` leading UTF-16 units. -/
def jsDrop (s : String) (n : Nat) : String :=
  String.mk (s.data.drop n)

/-- Characters counted as whitespace by `String.prototype.trim`. -/
def wsChar (c : Char) : Bool :=
  c.isWhitespace

/-- Trim whitespace from both ends of a character list. -/
def trimChars (l : List Char) : List Char :=
  ((l.dropWhile wsChar).reverse.dropWhile wsChar).reverse

/-- Model of `String.prototype.trim`. -/
def jsTrim (s : String) : String :=
  String.mk (trimChars s.data)

/-- Split a character list at every newline; always returns at least one
(possibly empty) line, mirroring how a text document decomposes into lines. -/
def splitLines : List Char → List (List Char)
  | [] => [[]]
  | c :: cs =>
    match splitLines cs with
    | [] => [[]]
    | l :: ls => if c = '\n' then [] :: l :: ls else (c :: l) :: ls

/-- The lines of a string, as strings. -/
def linesOfString (s : String) : List String :=
  (splitLines s.data).map (fun cs => String.mk cs)

/-- Join lines with single newline separators (inverse of `splitLines`). -/
def joinNLChars : List (List Char) → List Char
  | [] => []
  | [l] => l
  | l :: l₂ :: ls => l ++ '\n' :: joinNLChars (l₂ :: ls)

/-- Join a list of strings with newline separators, like
`Array.prototype.join("\n")` / how `marked` assembles a token's text. -/
def joinNL (ls : List String) : String :=
  String.mk (joinNLChars (ls.map String.data))

/-- Model of JavaScript `x || d` for an optional string `x` (both `undefined`
and the empty string are falsy). -/
def jsOrStr (o : Option String) (d : String) : String :=
  match o with
  | some s => if s = "" then d else s
  | none => d

/-- Split a character list at the first occurrence of `sep`, if any. -/
def splitFirst (sep : List Char) : List Char → Option (List Char × List Char)
  | [] => if sep = [] then some ([], []) else none
  | c :: cs =>
    if sep.isPrefixOf (c :: cs) then some ([], (c :: cs).drop sep.length)
    else
      match splitFirst sep cs with
      | some (a, b) => some (c :: a, b)
      | none => none

/-! ## Data model (`src/types/editor.ts`)

`BlockType` is a closed string union in the source, but the parser writes
`` `h${token.depth}` as BlockType ``, an unchecked cast; block `type` is
therefore modelled as the runtime value, a `String`, and membership in the
declared union is a predicate. -/

/-- The twelve members of the declared `BlockType` union. -/
def validBlockTypes : List String :=
  ["p", "h1", "h2", "h3", "ul", "ol", "li", "blockquote", "code", "hr", "checkbox", "image"]

/-- The `metadata` record: the source stores at most one semantically typed
key per block (`status` for checkboxes, `language` for code, `src` for
images). -/
inductive MetaVal where
  | status (s : String)
  | language (l : String)
  | src (s : String)
deriving DecidableEq, Repr

/-- An `EditorBlock` record. -/
structure EditorBlock where
  id : String
  btype : String
  content : String
  metadata : Option MetaVal
deriving DecidableEq, Repr

/-- `block.metadata?.status`. -/
def metaStatus : Option MetaVal → Option String
  | some (MetaVal.status s) => some s
  | _ => none

/-- `block.metadata?.language`. -/
def metaLanguage : Option MetaVal → Option String
  | some (MetaVal.language l) => some l
  | _ => none

/-- `block.metadata?.src`. -/
def metaSrc : Option MetaVal → Option String
  | some (MetaVal.src s) => some s
  | _ => none

/-! ## Tokenizer model (`marked.lexer`, modelled from the spec)

Modelled from the spec: the repository calls the third-party
`marked.lexer`, whose source is not in the repository.  The spec describes
it as "a standard block-level markdown tokenizer" and fixes, in the §4.1
token table, the token kinds the parser consumes: headings (ATX, depths
1–6 per standard markdown), paragraphs (with the single-inline-image
case), flat lists with GFM task items (markers stripped from the reported
item text), fenced code (closing fences indented up to three spaces, no
info string), horizontal rules (marker runs such as `- --`, tried before
the list rule as `marked` does), blockquotes, standalone images, and blank
space.  The model below lexes line by line with a state machine that
groups consecutive list / quote / paragraph lines, which reproduces
`marked`'s block grammar on the flat flush-left subset the editor
emits. -/

/-- A list item token: GFM task flag, checked flag, and the item text
(with the task marker already stripped, as `marked` reports it). -/
structure ListItem where
  task : Bool
  checked : Bool
  text : String
deriving DecidableEq, Repr

/-- Block-level tokens of the modelled lexer.  `paragraph` carries the
optional sole inline image `(text, href)` that the source inspects via
`token.tokens`. -/
inductive Token where
  | heading (depth : Nat) (text : String)
  | paragraph (text : String) (soleImage : Option (String × String))
  | list (ordered : Bool) (items : List ListItem)
  | code (text : String) (lang : String)
  | hr
  | blockquote (text : String)
  | image (text : String) (href : String)
  | space
deriving DecidableEq, Repr

/-- ATX heading recognition: 1–6 leading `#` followed by a space (or end of
line); the heading text is the trimmed remainder. -/
def headingOfLine (l : String) : Option (Nat × String) :=
  let hs := (l.data.takeWhile (fun c => c = '#')).length
  if 1 ≤ hs ∧ hs ≤ 6 then
    match l.data.drop hs with
    | [] => some (hs, "")
    | c :: cs => if c = ' ' then some (hs, jsTrim (String.mk (c :: cs))) else none
  else none

/-- Fenced-code opening line (the serializer emits fences flush left). -/
def isFenceLine (l : String) : Bool :=
  jsStartsWith l "```"

/-- A closing code fence: up to three leading spaces, three or more
backticks, then nothing but spaces or tabs (the CommonMark/`marked`
closing-fence shape; a closing fence carries no info string). -/
def isCloseFence (l : String) : Bool :=
  let sp := l.data.takeWhile (fun c => c = ' ')
  let rest := l.data.drop sp.length
  let ticks := rest.takeWhile (fun c => c = '`')
  sp.length ≤ 3 && 3 ≤ ticks.length &&
    (rest.drop ticks.length).all (fun c => c = ' ' || c = '\t' || c = '`' || c = '~')

/-- Blockquote line. -/
def isQuoteLine (l : String) : Bool :=
  jsStartsWith l ">"

/-- Strip a blockquote marker from a line. -/
def stripQuote (l : String) : String :=
  if jsStartsWith l "> " then jsDrop l 2 else jsDrop l 1

/-- Unordered list item line with `-` bullet. -/
def isDashLine (l : String) : Bool :=
  jsStartsWith l "- "

/-- Unordered list item line with `*` bullet. -/
def isStarLine (l : String) : Bool :=
  jsStartsWith l "* "

/-- Ordered list item line (`digits`, `.`, space); returns the item text. -/
def olOfLine (l : String) : Option String :=
  let ds := l.data.takeWhile Char.isDigit
  if ds = [] then none
  else if jsStartsWith (jsDrop l ds.length) ". " then some (jsDrop l (ds.length + 2))
  else none

/-- A GFM task-item marker at the front of an item's text (`marked`'s
`istask` regex `[ xX]` accepts an uppercase X as well). -/
def taskOf (t : String) : Bool :=
  jsStartsWith t "[ ] " || jsStartsWith t "[x] " || jsStartsWith t "[X] "

/-- A checked GFM task-item marker. -/
def checkedOf (t : String) : Bool :=
  jsStartsWith t "[x] " || jsStartsWith t "[X] "

/-- Build the list-item token for a bullet line: `marked` records the GFM
task flags and strips the marker (with its trailing space) from the
reported item text; non-task text is reported verbatim. -/
def itemOfText (t : String) : ListItem :=
  { task := taskOf t, checked := checkedOf t,
    text := if taskOf t then jsDrop t 4 else t }

/-- A line that is exactly one inline image `![alt](src)`; returns
`(alt, src)`.  The alt text may not contain `]`, the target may not contain
`)` or a space (standard link grammar restrictions). -/
def imageOfLine (l : String) : Option (String × String) :=
  if jsStartsWith l "![" ∧ jsEndsWith l ")" then
    match splitFirst [']', '('] ((l.data.drop 2).dropLast) with
    | some (a, s) =>
      if a.all (fun c => c ≠ ']' ∧ c ≠ '\n') ∧ s.all (fun c => c ≠ ')' ∧ c ≠ ' ' ∧ c ≠ '\n') then
        some (String.mk a, String.mk s)
      else none
    | none => none
  else none

/-- Classification of a single input line. -/
inductive LineKind where
  | blank
  | fence (lang : String)
  | heading (depth : Nat) (text : String)
  | hrule
  | quoted (text : String)
  | dashItem (item : ListItem)
  | starItem (item : ListItem)
  | olItem (item : ListItem)
  | imageLine (alt : String) (src : String)
  | plain
deriving DecidableEq, Repr

/-- One thematic-break marker run on a flush-left line: the line starts
with the marker and consists only of that marker, spaces and tabs, with at
least three marker occurrences (`marked`'s `hr` body `(?:-[\t ]*){3,}`). -/
def hrRun (m : Char) (l : List Char) : Bool :=
  match l with
  | [] => false
  | c :: _ =>
    c = m && l.all (fun ch => ch = m || ch = ' ' || ch = '\t') &&
      3 ≤ (l.filter (fun ch => ch = m)).length

/-- A thematic-break line (`---`, `- --`, `***`, `_ _ _`, …).  `marked`
tries its `hr` rule before the list rule, so a dash run beats a dash
bullet. -/
def isHrLine (l : String) : Bool :=
  hrRun '-' l.data || hrRun '_' l.data || hrRun '*' l.data

/-- Classify one line, with `marked`'s block precedence (space, fences,
heading, hr, blockquote, list, paragraph). -/
def classify (l : String) : LineKind :=
  if l = "" then LineKind.blank
  else if isFenceLine l then LineKind.fence (jsTrim (jsDrop l 3))
  else
    match headingOfLine l with
    | some (d, t) => LineKind.heading d t
    | none =>
      if isHrLine l then LineKind.hrule
      else if isQuoteLine l then LineKind.quoted (stripQuote l)
      else if isDashLine l then LineKind.dashItem (itemOfText (jsDrop l 2))
      else if isStarLine l then LineKind.starItem (itemOfText (jsDrop l 2))
      else
        match olOfLine l with
        | some t => LineKind.olItem (itemOfText t)
        | none =>
          match imageOfLine l with
          | some (a, s) => LineKind.imageLine a s
          | none => LineKind.plain

/-- Lexer state: the currently open multi-line group, if any. -/
inductive LexState where
  | idle
  | para (ls : List String)
  | quote (ls : List String)
  | dashList (items : List ListItem)
  | starList (items : List ListItem)
  | olist (items : List ListItem)
  | code (lang : String) (ls : List String)
deriving DecidableEq, Repr

/-- Close the open group, emitting its token. -/
def flushState : LexState → List Token
  | LexState.idle => []
  | LexState.para ls => [Token.paragraph (joinNL ls) none]
  | LexState.quote ls => [Token.blockquote (joinNL ls)]
  | LexState.dashList its => [Token.list false its]
  | LexState.starList its => [Token.list false its]
  | LexState.olist its => [Token.list true its]
  | LexState.code lang ls => [Token.code (joinNL ls) lang]

/-- Process one line of input. -/
def lexStep (acc : List Token × LexState) (l : String) : List Token × LexState :=
  match acc.2 with
  | LexState.code lang ls =>
    if isCloseFence l then (acc.1 ++ flushState (LexState.code lang ls), LexState.idle)
    else (acc.1, LexState.code lang (ls ++ [l]))
  | st =>
    match classify l with
    | LineKind.blank => (acc.1 ++ flushState st ++ [Token.space], LexState.idle)
    | LineKind.fence lang => (acc.1 ++ flushState st, LexState.code lang [])
    | LineKind.heading d t => (acc.1 ++ flushState st ++ [Token.heading d t], LexState.idle)
    | LineKind.hrule => (acc.1 ++ flushState st ++ [Token.hr], LexState.idle)
    | LineKind.quoted t =>
      match st with
      | LexState.quote ls => (acc.1, LexState.quote (ls ++ [t]))
      | _ => (acc.1 ++ flushState st, LexState.quote [t])
    | LineKind.dashItem it =>
      match st with
      | LexState.dashList its => (acc.1, LexState.dashList (its ++ [it]))
      | _ => (acc.1 ++ flushState st, LexState.dashList [it])
    | LineKind.starItem it =>
      match st with
      | LexState.starList its => (acc.1, LexState.starList (its ++ [it]))
      | _ => (acc.1 ++ flushState st, LexState.starList [it])
    | LineKind.olItem it =>
      match st with
      | LexState.olist its => (acc.1, LexState.olist (its ++ [it]))
      | _ => (acc.1 ++ flushState st, LexState.olist [it])
    | LineKind.imageLine a s =>
      (acc.1 ++ flushState st ++ [Token.paragraph l (some (a, s))], LexState.idle)
    | LineKind.plain =>
      match st with
      | LexState.para ls => (acc.1, LexState.para (ls ++ [l]))
      | _ => (acc.1 ++ flushState st, LexState.para [l])

/-- Lex a list of lines into block tokens. -/
def lexLines (ls : List String) : List Token :=
  let r := ls.foldl lexStep ([], LexState.idle)
  r.1 ++ flushState r.2

/-- The modelled `marked.lexer`. -/
def lexMarkdown (s : String) : List Token :=
  lexLines (linesOfString s)

/-! ## `parseMarkdownToBlocks` (`src/lib/markdown/parser.ts`, lines 15–145)

`processToken` is translated case by case from the source's `switch`.
Fresh ids: the k-th block pushed receives `fresh (n + k)` where `n` counts
blocks pushed so far, modelling one `nanoid()` call per push. -/

/-- Model of `text.replace(/^\[[ x]\] /, "")`: strip one leading task
marker, if present. -/
def stripTaskMarker (t : String) : String :=
  if jsStartsWith t "[ ] " ∨ jsStartsWith t "[x] " then jsDrop t 4 else t

/-- The in-progress marker test from the source's list case:
`text.startsWith("[.] ") || text.startsWith("[/] ") || text.startsWith("[-] ")`. -/
def isInProgressText (t : String) : Bool :=
  jsStartsWith t "[.] " || jsStartsWith t "[/] " || jsStartsWith t "[-] "

/-- The block pushed for one list item (source lines 63–85), minus its id. -/
def listItemBlock (ordered : Bool) (it : ListItem) : String × String × Option MetaVal :=
  let text := it.text
  let inProg := isInProgressText text
  let isTask := it.task || inProg
  let status : String :=
    if it.task then (if it.checked then "done" else "todo")
    else if inProg then "in_progress" else "todo"
  let cleanContent : String :=
    if it.task then stripTaskMarker text
    else if inProg then jsDrop text 4 else text
  (if isTask then "checkbox" else (if ordered then "ol" else "ul"),
   cleanContent,
   if isTask then some (MetaVal.status status) else none)

/-- The `(type, content, metadata)` triples pushed for one token
(`processToken`'s cases, ids omitted). -/
def tokenTriples : Token → List (String × String × Option MetaVal)
  | Token.heading d t => [("h" ++ toString d, t, none)]
  | Token.paragraph _ (some (alt, href)) => [("image", alt, some (MetaVal.src href))]
  | Token.paragraph t none => [("p", t, none)]
  | Token.list ordered items => items.map (listItemBlock ordered)
  | Token.code t lang => [("code", t, some (MetaVal.language lang))]
  | Token.hr => [("hr", "", none)]
  | Token.blockquote t => [("blockquote", t, none)]
  | Token.image t href => [("image", t, some (MetaVal.src href))]
  | Token.space => []

/-- Attach fresh ids, in push order, to a token's blocks. -/
def withIds (fresh : Nat → String) (n : Nat) (ts : List (String × String × Option MetaVal)) :
    List EditorBlock :=
  (List.range ts.length).zip ts |>.map
    (fun p => { id := fresh (n + p.1), btype := p.2.1, content := p.2.2.1, metadata := p.2.2.2 })

/-- `tokens.forEach(processToken)`: fold over the token list, threading the
count of blocks pushed so far. -/
def processTokens (fresh : Nat → String) (n : Nat) : List Token → List EditorBlock
  | [] => []
  | t :: ts =>
    let bs := withIds fresh n (tokenTriples t)
    bs ++ processTokens fresh (n + bs.length) ts

/-- `parseMarkdownToBlocks` (source lines 15–145): tokenize, map tokens to
blocks, and fall back to a single empty paragraph when no block was
produced. -/
def parseMarkdownToBlocks (fresh : Nat → String) (markdown : String) : List EditorBlock :=
  let blocks := processTokens fresh 0 (lexMarkdown markdown)
  if blocks.isEmpty then [{ id := fresh 0, btype := "p", content := "", metadata := none }]
  else blocks

/-- Drop ids: the `(type, content, metadata)` projection of a block list. -/
def stripAll (bs : List EditorBlock) : List (String × String × Option MetaVal) :=
  bs.map (fun b => (b.btype, b.content, b.metadata))

/-! ## `blocksToMarkdown` (`src/lib/markdown/parser.ts`, lines 147–189) -/

/-- `['ul', 'ol', 'checkbox'].includes(type)` (source line 155). -/
def isListType (t : String) : Bool :=
  t = "ul" || t = "ol" || t = "checkbox"

/-- The checkbox marker: `[x]` for done, `[/]` for in_progress, `[ ]`
otherwise (source lines 164–165, with the JS `||` default). -/
def checkboxMarker (m : Option MetaVal) : String :=
  let status := jsOrStr (metaStatus m) "todo"
  if status = "done" then "[x]" else if status = "in_progress" then "[/]" else "[ ]"

/-- The serialized image target: `${metadata?.src}` stringifies a missing
src as `"undefined"`. -/
def srcValOf (m : Option MetaVal) : String :=
  match metaSrc m with
  | some s => s
  | none => "undefined"

/-- The per-type emission template (the `switch` of source lines 157–180,
without the neighbor-dependent extra newlines). -/
def emitBlock (b : EditorBlock) : String :=
  match b.btype with
  | "h1" => "# " ++ b.content ++ "\n\n"
  | "h2" => "## " ++ b.content ++ "\n\n"
  | "h3" => "### " ++ b.content ++ "\n\n"
  | "ul" => "- " ++ b.content ++ "\n"
  | "ol" => "1. " ++ b.content ++ "\n"
  | "checkbox" => "- " ++ checkboxMarker b.metadata ++ " " ++ b.content ++ "\n"
  | "blockquote" => "> " ++ b.content ++ "\n\n"
  | "code" =>
    "```" ++ jsOrStr (metaLanguage b.metadata) "" ++ "\n" ++ b.content ++ "\n```" ++ "\n\n"
  | "image" => "![" ++ b.content ++ "](" ++ srcValOf b.metadata ++ ")\n\n"
  | "hr" => "---\n\n"
  | _ => b.content ++ "\n\n"

/-- One loop iteration's contribution (source lines 150–185): the optional
blank line before an image that follows a list block, the block's own
emission, and the optional blank line after a list block whose successor
is neither a list block nor an image. -/
def chunkOf (prev : Option EditorBlock) (b : EditorBlock) (next : Option EditorBlock) : String :=
  (if b.btype = "image" && (match prev with
      | some p => isListType p.btype
      | none => false) then "\n" else "")
  ++ emitBlock b
  ++ (if isListType b.btype && (match next with
      | some nb => !isListType nb.btype && nb.btype ≠ "image"
      | none => false) then "\n" else "")

/-- The `blocks.forEach` accumulation, tracking the previous block. -/
def emitAll : Option EditorBlock → List EditorBlock → String
  | _, [] => ""
  | prev, b :: rest => chunkOf prev b rest.head? ++ emitAll (some b) rest

/-- `blocksToMarkdown` (source lines 147–189). -/
def blocksToMarkdown (blocks : List EditorBlock) : String :=
  jsTrim (emitAll none blocks)

/-! ## The editor state machine (`src/hooks/useEditor`, lines 772–918)

Operations are pure state transformers.  `removeBlock`, `mergeWithPrevious`
and `moveBlock` index into arrays; an out-of-range access (a JS
`TypeError`) is modelled as `none`, so `some s'` means the call returned
normally with next state `s'`.  Fresh `nanoid()` ids are explicit
arguments. -/

/-- The editor state (`EditorState` of `src/types/editor.ts`; `lastSaved`
timestamps carry no information the claims need, so `Option Unit`). -/
structure EditorState where
  blocks : List EditorBlock
  activeBlockId : Option String
  isDirty : Bool
  lastSaved : Option Unit
deriving DecidableEq, Repr

/-- `Partial<EditorBlock>`: each field optionally present. -/
structure BlockPatch where
  id : Option String
  btype : Option String
  content : Option String
  metadata : Option (Option MetaVal)
deriving DecidableEq, Repr

/-- The spread `{ ...b, ...updates }`. -/
def applyPatch (b : EditorBlock) (p : BlockPatch) : EditorBlock :=
  { id := p.id.getD b.id
    btype := p.btype.getD b.btype
    content := p.content.getD b.content
    metadata := match p.metadata with
      | some m => m
      | none => b.metadata }

/-- `blocks.findIndex(b => b.id === id)`: `-1` when absent. -/
def findIdxInt (blocks : List EditorBlock) (id : String) : Int :=
  match blocks.findIdx? (fun b => b.id = id) with
  | some i => (i : Int)
  | none => -1

/-- `array.splice(n, 0, x)` insertion (clamping like JS `splice`). -/
def spliceInsert (l : List EditorBlock) (n : Nat) (x : EditorBlock) : List EditorBlock :=
  l.take n ++ [x] ++ l.drop n

/-- `updateBlock(id, updates)` (hook lines 787–793). -/
def updateBlock (id : String) (p : BlockPatch) (s : EditorState) : EditorState :=
  { s with
    blocks := s.blocks.map (fun b => if b.id = id then applyPatch b p else b)
    isDirty := true }

/-- `initialData?: Partial<EditorBlock>` as consumed by `addBlock`. -/
structure InitData where
  content : Option String
  metadata : Option MetaVal
deriving DecidableEq, Repr

/-- The fresh block built by `addBlock` (hook lines 801–806). -/
def newBlockOf (newId : String) (btype : String) (d : Option InitData) : EditorBlock :=
  { id := newId
    btype := btype
    content := jsOrStr (d.bind (fun x => x.content)) ""
    metadata := match d.bind (fun x => x.metadata) with
      | some m => some m
      | none => if btype = "checkbox" then some (MetaVal.status "todo") else none }

/-- `addBlock(type, afterId, initialData)` (hook lines 795–823).  The index
guard is JS-truthiness on `afterId`: both `null` and `""` select
`blocks.length - 1`. -/
def addBlock (newId : String) (btype : String) (afterId : Option String)
    (d : Option InitData) (s : EditorState) : EditorState :=
  let newBlock := newBlockOf newId btype d
  let idx : Int :=
    match afterId with
    | some a => if a = "" then (s.blocks.length : Int) - 1 else findIdxInt s.blocks a
    | none => (s.blocks.length : Int) - 1
  { s with
    blocks := spliceInsert s.blocks (idx + 1).toNat newBlock
    activeBlockId := some newId
    isDirty := true }

/-- `removeBlock(id)` (hook lines 825–838). -/
def removeBlock (id : String) (s : EditorState) : Option EditorState :=
  if s.blocks.length ≤ 1 then some s
  else
    let idx := findIdxInt s.blocks id
    let newBlocks := s.blocks.filter (fun b => b.id ≠ id)
    match newBlocks.get? (max (idx - 1) 0).toNat with
    | some b => some { s with blocks := newBlocks, activeBlockId := some b.id, isDirty := true }
    | none => none

/-- `mergeWithPrevious(id)` (hook lines 840–861). -/
def mergeWithPrevious (id : String) (s : EditorState) : Option EditorState :=
  let idx := findIdxInt s.blocks id
  if idx ≤ 0 then some s
  else
    match s.blocks.get? idx.toNat, s.blocks.get? (idx.toNat - 1) with
    | some currentBlock, some previousBlock =>
      let merged := { previousBlock with content := previousBlock.content ++ currentBlock.content }
      some { s with
        blocks := (s.blocks.set (idx.toNat - 1) merged).eraseIdx idx.toNat
        activeBlockId := some previousBlock.id
        isDirty := true }
    | _, _ => none

/-- The `direction` argument of `moveBlock`. -/
inductive MoveDir where
  | up
  | down
deriving DecidableEq, Repr

/-- `moveBlock(id, direction)` (hook lines 887–904). -/
def moveBlock (id : String) (dir : MoveDir) (s : EditorState) : Option EditorState :=
  let idx := findIdxInt s.blocks id
  if idx = -1 then some s
  else if dir = MoveDir.up ∧ idx = 0 then some s
  else if dir = MoveDir.down ∧ idx = (s.blocks.length : Int) - 1 then some s
  else
    let target : Int := if dir = MoveDir.up then idx - 1 else idx + 1
    match s.blocks.get? idx.toNat, s.blocks.get? target.toNat with
    | some bi, some bt =>
      some { s with
        blocks := (s.blocks.set idx.toNat bt).set target.toNat bi
        isDirty := true }
    | _, _ => none

/-- `resetEditor(markdown, options)` (hook lines 867–877). -/
def resetEditor (fresh : Nat → String) (markdown : String) (focusLast : Bool)
    (_s : EditorState) : EditorState :=
  let parsedBlocks := parseMarkdownToBlocks fresh markdown
  let lastBlockId := match parsedBlocks.getLast? with
    | some b => some b.id
    | none => none
  { blocks := parsedBlocks
    activeBlockId := if focusLast then lastBlockId else none
    isDirty := false
    lastSaved := some () }

/-- `markAsSaved()` (hook lines 879–885). -/
def markAsSaved (s : EditorState) : EditorState :=
  { s with isDirty := false, lastSaved := some () }

/-- `setActiveBlock(id)` (hook line 916). -/
def setActiveBlock (id : Option String) (s : EditorState) : EditorState :=
  { s with activeBlockId := id }

/-! ## State-machine operation algebra -/

/-- The two delete-like operations of claim C2. -/
inductive RMOp where
  | remove (id : String)
  | merge (id : String)
deriving DecidableEq, Repr

/-- Apply one delete-like operation. -/
def stepRM : RMOp → EditorState → Option EditorState
  | RMOp.remove id, s => removeBlock id s
  | RMOp.merge id, s => mergeWithPrevious id s

/-- Run a sequence of delete-like operations; `none` as soon as one call
faults. -/
def runRM : List RMOp → EditorState → Option EditorState
  | [], s => some s
  | op :: ops, s =>
    match stepRM op s with
    | some s' => runRM ops s'
    | none => none

/-- All mutating operations of the hook other than `resetEditor` and
`markAsSaved`. -/
inductive EdOp where
  | update (id : String) (p : BlockPatch)
  | add (newId btype : String) (afterId : Option String) (d : Option InitData)
  | remove (id : String)
  | merge (id : String)
  | move (id : String) (dir : MoveDir)
  | setActive (id : Option String)
deriving DecidableEq, Repr

/-- Apply one such operation. -/
def applyEdOp : EdOp → EditorState → Option EditorState
  | EdOp.update id p, s => some (updateBlock id p s)
  | EdOp.add nid t a d, s => some (addBlock nid t a d s)
  | EdOp.remove id, s => removeBlock id s
  | EdOp.merge id, s => mergeWithPrevious id s
  | EdOp.move id dir, s => moveBlock id dir s
  | EdOp.setActive id, s => some (setActiveBlock id s)

/-- Active-block referential integrity, as a decidable check: the active id
is null or the id of some block in the list. -/
def activeOkB (s : EditorState) : Bool :=
  match s.activeBlockId with
  | none => true
  | some i => s.blocks.any (fun b => b.id = i)

/-! ### Helper lemmas about the operations -/

theorem removeBlock_keeps_nonempty {id : String} {s s' : EditorState}
    (hne : s.blocks ≠ []) (h : removeBlock id s = some s') : s'.blocks ≠ [] := by
  simp only [removeBlock] at h
  split at h
  · injection h with h; subst h; exact hne
  · split at h
    · next b hb =>
      injection h with h; subst h
      intro hnil
      dsimp only at hnil
      rw [hnil] at hb
      simp at hb
    · cases h

theorem mergeWithPrevious_keeps_nonempty {id : String} {s s' : EditorState}
    (hne : s.blocks ≠ []) (h : mergeWithPrevious id s = some s') : s'.blocks ≠ [] := by
  simp only [mergeWithPrevious] at h
  split at h
  · injection h with h; subst h; exact hne
  · next hpos =>
    split at h
    · next cur prevB hcur hprev =>
      injection h with h; subst h
      have hlt : (findIdxInt s.blocks id).toNat < s.blocks.length :=
        (List.get?_eq_some.mp hcur).1
      intro hnil
      dsimp only at hnil
      have hlen := congrArg List.length hnil
      rw [List.length_eraseIdx_of_lt (by simpa using hlt), List.length_set] at hlen
      simp only [List.length_nil] at hlen
      omega
    · cases h

theorem stepRM_keeps_nonempty {op : RMOp} {s s' : EditorState}
    (hne : s.blocks ≠ []) (h : stepRM op s = some s') : s'.blocks ≠ [] := by
  cases op with
  | remove id => exact removeBlock_keeps_nonempty hne h
  | merge id => exact mergeWithPrevious_keeps_nonempty hne h

theorem runRM_keeps_nonempty {ops : List RMOp} {s s' : EditorState}
    (hne : s.blocks ≠ []) (h : runRM ops s = some s') : s'.blocks ≠ [] := by
  induction ops generalizing s with
  | nil =>
    simp only [runRM] at h
    injection h with h; subst h; exact hne
  | cons op ops ih =>
    simp only [runRM] at h
    split at h
    · next s₁ h₁ => exact ih (stepRM_keeps_nonempty hne h₁) h
    · cases h

theorem removeBlock_singleton_noop {id : String} {s : EditorState}
    (h : s.blocks.length ≤ 1) : removeBlock id s = some s := by
  unfold removeBlock
  rw [if_pos h]

/-- Map with a pointwise-identity function is the identity. -/
theorem map_id_of_forall {α : Type} {l : List α} {f : α → α}
    (h : ∀ x ∈ l, f x = x) : l.map f = l := by
  induction l with
  | nil => rfl
  | cons a t ih => simp [h a (by simp), ih (fun x hx => h x (by simp [hx]))]

/-- An id absent from the list makes `findIndex` return `-1`. -/
theorem findIdxInt_absent {blocks : List EditorBlock} {id : String}
    (h : ∀ b ∈ blocks, b.id ≠ id) : findIdxInt blocks id = -1 := by
  unfold findIdxInt
  rw [List.findIdx?_eq_none_iff.mpr (fun b hb => by simpa using h b hb)]

/-- Concrete sample blocks and states for witnesses and counterexamples. -/
def blockA : EditorBlock :=
  { id := "a", btype := "p", content := "x", metadata := none }

def blockB : EditorBlock :=
  { id := "b", btype := "p", content := "y", metadata := none }

def oneBlockState : EditorState :=
  { blocks := [blockA], activeBlockId := none, isDirty := false, lastSaved := none }

def twoBlockState : EditorState :=
  { blocks := [blockA, blockB], activeBlockId := none, isDirty := false, lastSaved := none }

/-- C2: starting from any state with a nonempty block list, every finite
sequence of `removeBlock` / `mergeWithPrevious` calls (arbitrary id
arguments) that returns leaves at least one block in the list; in
particular `removeBlock` is a no-op when the list has exactly one block. -/
theorem C2_min_block_invariant (s : EditorState) (ops : List RMOp) (s' : EditorState)
    (id : String) :
    (s.blocks ≠ [] → runRM ops s = some s' → s'.blocks ≠ []) ∧
    (s.blocks.length = 1 → removeBlock id s = some s) :=
  ⟨fun hne h => runRM_keeps_nonempty hne h, fun h => removeBlock_singleton_noop (le_of_eq h)⟩

/-- Witness for C2 at a concrete one-block state and operation sequence. -/
theorem C2_min_block_invariant_witness :
    oneBlockState.blocks ≠ [] ∧
    runRM [RMOp.remove "a", RMOp.merge "a"] oneBlockState = some oneBlockState ∧
    oneBlockState.blocks.length = 1 ∧
    oneBlockState.blocks ≠ [] ∧ removeBlock "b" oneBlockState = some oneBlockState := by
  have h := C2_min_block_invariant oneBlockState [RMOp.remove "a", RMOp.merge "a"]
    oneBlockState "b"
  exact ⟨by decide, by decide, by decide, h.1 (by decide) (by decide), h.2 (by decide)⟩

/-- Guarded operations either return the state unchanged or set the dirty
flag: `removeBlock`. -/
theorem removeBlock_dirty_or_id {id : String} {s s' : EditorState}
    (h : removeBlock id s = some s') : s' = s ∨ s'.isDirty = true := by
  simp only [removeBlock] at h
  split at h
  · injection h with h; subst h; exact Or.inl rfl
  · split at h
    · injection h with h; subst h; exact Or.inr rfl
    · cases h

/-- Guarded operations either return the state unchanged or set the dirty
flag: `mergeWithPrevious`. -/
theorem mergeWithPrevious_dirty_or_id {id : String} {s s' : EditorState}
    (h : mergeWithPrevious id s = some s') : s' = s ∨ s'.isDirty = true := by
  simp only [mergeWithPrevious] at h
  split at h
  · injection h with h; subst h; exact Or.inl rfl
  · split at h
    · injection h with h; subst h; exact Or.inr rfl
    · cases h

/-- Guarded operations either return the state unchanged or set the dirty
flag: `moveBlock`. -/
theorem moveBlock_dirty_or_id {id : String} {d : MoveDir} {s s' : EditorState}
    (h : moveBlock id d s = some s') : s' = s ∨ s'.isDirty = true := by
  simp only [moveBlock] at h
  split at h
  · injection h with h; subst h; exact Or.inl rfl
  · split at h
    · injection h with h; subst h; exact Or.inl rfl
    · split at h
      · injection h with h; subst h; exact Or.inl rfl
      · split at h
        · injection h with h; subst h; exact Or.inr rfl
        · cases h

/-- No mutating operation other than `resetEditor`/`markAsSaved` turns a
set dirty flag off. -/
theorem applyEdOp_preserves_dirty {op : EdOp} {s s' : EditorState}
    (h : applyEdOp op s = some s') (hd : s.isDirty = true) : s'.isDirty = true := by
  cases op with
  | update id p => injection h with h; subst h; rfl
  | add nid t a d => injection h with h; subst h; rfl
  | remove id =>
    rcases removeBlock_dirty_or_id h with h' | h'
    · rw [h']; exact hd
    · exact h'
  | merge id =>
    rcases mergeWithPrevious_dirty_or_id h with h' | h'
    · rw [h']; exact hd
    · exact h'
  | move id dir =>
    rcases moveBlock_dirty_or_id h with h' | h'
    · rw [h']; exact hd
    · exact h'
  | setActive id => injection h with h; subst h; exact hd

/-- C3 counterexample: on a clean single-block state, `removeBlock` is the
guard's no-op and returns the state with `isDirty` still `false`, so not
every `removeBlock` call results in `isDirty = true`. -/
theorem C3_dirty_flag_counterexample :
    removeBlock "a" oneBlockState = some oneBlockState ∧
    oneBlockState.isDirty = false := by
  decide

/-- C3 (amended): `updateBlock` and `addBlock` always set `isDirty`;
`removeBlock`, `mergeWithPrevious` and `moveBlock` set it unless their
no-op guard fires, in which case the state is returned entirely unchanged
(dirty flag included); no operation other than `resetEditor` and
`markAsSaved` ever changes `isDirty` from `true` to `false`, and those two
always produce `isDirty = false`. -/
theorem C3_dirty_flag_amended :
    (∀ id p s, (updateBlock id p s).isDirty = true) ∧
    (∀ nid t a d s, (addBlock nid t a d s).isDirty = true) ∧
    (∀ id s, s.blocks.length ≤ 1 → removeBlock id s = some s) ∧
    (∀ id s s', removeBlock id s = some s' → s' = s ∨ s'.isDirty = true) ∧
    (∀ id s s', mergeWithPrevious id s = some s' → s' = s ∨ s'.isDirty = true) ∧
    (∀ id d s s', moveBlock id d s = some s' → s' = s ∨ s'.isDirty = true) ∧
    (∀ op s s', applyEdOp op s = some s' → s.isDirty = true → s'.isDirty = true) ∧
    (∀ s, (markAsSaved s).isDirty = false) ∧
    (∀ fresh md fl s, (resetEditor fresh md fl s).isDirty = false) := by
  refine ⟨fun _ _ _ => rfl, fun _ _ _ _ _ => rfl, ?_, ?_, ?_, ?_, ?_, fun _ => rfl,
    fun _ _ _ _ => rfl⟩
  · intro id s h
    exact removeBlock_singleton_noop h
  · intro id s s' h
    exact removeBlock_dirty_or_id h
  · intro id s s' h
    exact mergeWithPrevious_dirty_or_id h
  · intro id d s s' h
    exact moveBlock_dirty_or_id h
  · intro op s s' h hd
    exact applyEdOp_preserves_dirty h hd

/-- The state after removing block `b` from the two-block sample. -/
def twoAfterRemoveA : EditorState :=
  { blocks := [blockB], activeBlockId := some "b", isDirty := true, lastSaved := none }

/-- The one-block sample with the dirty flag set. -/
def oneDirtyState : EditorState :=
  { blocks := [blockA], activeBlockId := none, isDirty := true, lastSaved := none }

/-- `oneDirtyState` after focusing block `a`. -/
def oneDirtyActiveState : EditorState :=
  { blocks := [blockA], activeBlockId := some "a", isDirty := true, lastSaved := none }

/-- Witness for C3 (amended) at concrete states and operations. -/
theorem C3_dirty_flag_amended_witness :
    oneBlockState.blocks.length ≤ 1 ∧
    removeBlock "a" oneBlockState = some oneBlockState ∧
    removeBlock "a" twoBlockState = some twoAfterRemoveA ∧
    (twoAfterRemoveA = twoBlockState ∨ twoAfterRemoveA.isDirty = true) ∧
    applyEdOp (EdOp.setActive (some "a")) oneDirtyState = some oneDirtyActiveState ∧
    oneDirtyState.isDirty = true ∧
    oneDirtyActiveState.isDirty = true := by
  have h := C3_dirty_flag_amended
  refine ⟨by decide, h.2.2.1 "a" oneBlockState (by decide), by decide,
    h.2.2.2.1 "a" twoBlockState twoAfterRemoveA (by decide), by decide, by decide, ?_⟩
  exact h.2.2.2.2.2.2.1 (EdOp.setActive (some "a")) oneDirtyState oneDirtyActiveState
    (by decide) (by decide)

/-- `updateBlock` with an id absent from the list: structurally a no-op,
but the dirty flag is still set. -/
theorem updateBlock_absent {id : String} {p : BlockPatch} {s : EditorState}
    (habs : ∀ b ∈ s.blocks, b.id ≠ id) :
    (updateBlock id p s).blocks = s.blocks ∧ (updateBlock id p s).isDirty = true := by
  constructor
  · show s.blocks.map _ = s.blocks
    exact map_id_of_forall (fun b hb => by rw [if_neg (habs b hb)])
  · rfl

/-- `removeBlock` with an absent id on a list of length at least two:
structurally a no-op, but the dirty flag is still set. -/
theorem removeBlock_absent {id : String} {s s' : EditorState}
    (habs : ∀ b ∈ s.blocks, b.id ≠ id) (hlen : 2 ≤ s.blocks.length)
    (h : removeBlock id s = some s') : s'.blocks = s.blocks ∧ s'.isDirty = true := by
  have hf : s.blocks.filter (fun b => b.id ≠ id) = s.blocks :=
    List.filter_eq_self.mpr (fun b hb => by simpa using habs b hb)
  have hz : (max (-1 - 1 : Int) 0).toNat = 0 := by norm_num
  simp only [removeBlock, findIdxInt_absent habs, hf, hz] at h
  rw [if_neg (by omega)] at h
  cases hb : s.blocks.get? 0 with
  | none =>
    rw [hb] at h
    cases h
  | some b =>
    rw [hb] at h
    injection h with h
    subst h
    exact ⟨rfl, rfl⟩

/-- `mergeWithPrevious` with an absent id: the whole state is returned
unchanged (the `index <= 0` guard). -/
theorem mergeWithPrevious_absent {id : String} {s : EditorState}
    (habs : ∀ b ∈ s.blocks, b.id ≠ id) : mergeWithPrevious id s = some s := by
  simp only [mergeWithPrevious, findIdxInt_absent habs]
  rw [if_pos (by norm_num)]

/-- `moveBlock` with an absent id: the whole state is returned unchanged
(the `index === -1` guard). -/
theorem moveBlock_absent {id : String} {d : MoveDir} {s : EditorState}
    (habs : ∀ b ∈ s.blocks, b.id ≠ id) : moveBlock id d s = some s := by
  simp only [moveBlock, findIdxInt_absent habs]
  simp

/-- C4 counterexample: `moveBlock` with an id absent from the list returns
the state entirely unchanged, so on a clean state `isDirty` stays `false`,
refuting "while still setting isDirty to true" for `moveBlock` (and
likewise for `mergeWithPrevious` and single-block `removeBlock`). -/
theorem C4_absent_id_counterexample :
    (∀ b ∈ oneBlockState.blocks, b.id ≠ "zzz") ∧
    moveBlock "zzz" MoveDir.up oneBlockState = some oneBlockState ∧
    oneBlockState.isDirty = false := by
  decide

/-- C4 (amended): with an id absent from the list, `updateBlock` leaves the
block list unchanged and sets `isDirty`; `removeBlock` on a multi-block
list leaves the block list unchanged and sets `isDirty`; but
`mergeWithPrevious` and `moveBlock` (and `removeBlock` on a single-block
list) return the state entirely unchanged, dirty flag included. -/
theorem C4_absent_id_amended :
    (∀ id p s, (∀ b ∈ s.blocks, b.id ≠ id) →
      (updateBlock id p s).blocks = s.blocks ∧ (updateBlock id p s).isDirty = true) ∧
    (∀ id s s', (∀ b ∈ s.blocks, b.id ≠ id) → 2 ≤ s.blocks.length →
      removeBlock id s = some s' → s'.blocks = s.blocks ∧ s'.isDirty = true) ∧
    (∀ id s, (∀ b ∈ s.blocks, b.id ≠ id) → mergeWithPrevious id s = some s) ∧
    (∀ id d s, (∀ b ∈ s.blocks, b.id ≠ id) → moveBlock id d s = some s) :=
  ⟨fun _ _ _ habs => updateBlock_absent habs,
   fun _ _ _ habs hlen h => removeBlock_absent habs hlen h,
   fun _ _ habs => mergeWithPrevious_absent habs,
   fun _ _ _ habs => moveBlock_absent habs⟩

/-- The state `removeBlock` returns when its id is absent from the
two-block sample: blocks unchanged, first block focused, dirty set. -/
def twoAfterRemoveAbsent : EditorState :=
  { blocks := [blockA, blockB], activeBlockId := some "a", isDirty := true, lastSaved := none }

/-- Witness for C4 (amended) at a concrete two-block state and absent id. -/
theorem C4_absent_id_amended_witness :
    (∀ b ∈ twoBlockState.blocks, b.id ≠ "zzz") ∧
    2 ≤ twoBlockState.blocks.length ∧
    ((updateBlock "zzz" (BlockPatch.mk none none none none) twoBlockState).blocks =
        twoBlockState.blocks ∧
      (updateBlock "zzz" (BlockPatch.mk none none none none) twoBlockState).isDirty = true) ∧
    removeBlock "zzz" twoBlockState = some twoAfterRemoveAbsent ∧
    twoAfterRemoveAbsent.blocks = twoBlockState.blocks ∧
    mergeWithPrevious "zzz" twoBlockState = some twoBlockState ∧
    moveBlock "zzz" MoveDir.down twoBlockState = some twoBlockState := by
  have h := C4_absent_id_amended
  refine ⟨by decide, by decide,
    h.1 "zzz" (BlockPatch.mk none none none none) twoBlockState (by decide),
    by decide,
    (h.2.1 "zzz" twoBlockState _ (by decide) (by decide) (by decide)).1,
    h.2.2.1 "zzz" twoBlockState (by decide),
    h.2.2.2 "zzz" MoveDir.down twoBlockState (by decide)⟩

/-- Establish `activeOkB` from a member block carrying the active id. -/
theorem activeOkB_of_mem {s : EditorState} {b : EditorBlock}
    (ha : s.activeBlockId = some b.id) (hb : b ∈ s.blocks) : activeOkB s = true := by
  unfold activeOkB
  rw [ha]
  exact List.any_eq_true.mpr ⟨b, hb, by simp⟩

/-- Destruct `activeOkB` at a non-null active id. -/
theorem exists_of_activeOkB {s : EditorState} {i : String}
    (h : activeOkB s = true) (ha : s.activeBlockId = some i) :
    ∃ b ∈ s.blocks, b.id = i := by
  unfold activeOkB at h
  rw [ha] at h
  simpa using List.any_eq_true.mp h

theorem updateBlock_activeOk {id : String} {p : BlockPatch} {s : EditorState}
    (hp : p.id = none) (h : activeOkB s = true) :
    activeOkB (updateBlock id p s) = true := by
  cases ha : s.activeBlockId with
  | none => unfold activeOkB updateBlock; rw [ha]
  | some i =>
    obtain ⟨b, hb, hbi⟩ := exists_of_activeOkB h ha
    have hf : ∀ c : EditorBlock, ((fun c => if c.id = id then applyPatch c p else c) c).id = c.id := by
      intro c
      by_cases hc : c.id = id
      · simp [hc, applyPatch, hp]
      · simp [hc]
    refine activeOkB_of_mem (b := (fun c => if c.id = id then applyPatch c p else c) b) ?_ ?_
    · show s.activeBlockId = _
      rw [ha, hf b, hbi]
    · exact List.mem_map_of_mem _ hb

theorem addBlock_activeOk {nid t : String} {a : Option String} {d : Option InitData}
    {s : EditorState} : activeOkB (addBlock nid t a d s) = true := by
  have hmem : newBlockOf nid t d ∈ (addBlock nid t a d s).blocks := by
    simp [addBlock, spliceInsert]
  exact activeOkB_of_mem (b := newBlockOf nid t d) rfl hmem

theorem removeBlock_activeOk {id : String} {s s' : EditorState}
    (h : removeBlock id s = some s') (hok : activeOkB s = true) : activeOkB s' = true := by
  simp only [removeBlock] at h
  split at h
  · injection h with h; subst h; exact hok
  · split at h
    · next b hb =>
      injection h with h; subst h
      exact activeOkB_of_mem rfl (List.get?_mem hb)
    · cases h

theorem mergeWithPrevious_activeOk {id : String} {s s' : EditorState}
    (h : mergeWithPrevious id s = some s') (hok : activeOkB s = true) : activeOkB s' = true := by
  simp only [mergeWithPrevious] at h
  split at h
  · injection h with h; subst h; exact hok
  · next hpos =>
    split at h
    · next cur prevB hcur hprev =>
      injection h with h; subst h
      have hlt : (findIdxInt s.blocks id).toNat < s.blocks.length :=
        (List.get?_eq_some.mp hcur).1
      have hge : 1 ≤ (findIdxInt s.blocks id).toNat := by omega
      set i := (findIdxInt s.blocks id).toNat with hi
      set merged : EditorBlock :=
        { prevB with content := prevB.content ++ cur.content } with hm
      have hmem : merged ∈ (s.blocks.set (i - 1) merged).eraseIdx i := by
        have hget : ((s.blocks.set (i - 1) merged).eraseIdx i).get? (i - 1) = some merged := by
          rw [List.get?_eq_getElem?, List.getElem?_eraseIdx_of_lt _ _ _ (by omega),
            List.getElem?_set_eq_of_lt]
          omega
        exact List.get?_mem hget
      exact activeOkB_of_mem (b := merged) rfl hmem
    · cases h

/-- A `findIndex` result other than `-1` is nonnegative. -/
theorem findIdxInt_nonneg_of_ne {blocks : List EditorBlock} {id : String}
    (h : findIdxInt blocks id ≠ -1) : 0 ≤ findIdxInt blocks id := by
  unfold findIdxInt at h ⊢
  cases hf : blocks.findIdx? (fun b => b.id = id) with
  | some k => simp
  | none => rw [hf] at h; simp at h

/-- Membership is preserved by the two-`set` swap of `moveBlock`. -/
theorem mem_set_swap {l : List EditorBlock} {i j : Nat} {bi bt : EditorBlock}
    (hi : l.get? i = some bi) (hj : l.get? j = some bt) (hij : i ≠ j) {x : EditorBlock}
    (hx : x ∈ l) : x ∈ (l.set i bt).set j bi := by
  have hi' : l[i]? = some bi := by rwa [List.get?_eq_getElem?] at hi
  have hj' : l[j]? = some bt := by rwa [List.get?_eq_getElem?] at hj
  have hil : i < l.length := by
    rcases List.getElem?_eq_some.mp hi' with ⟨h, _⟩
    exact h
  have hjl : j < l.length := by
    rcases List.getElem?_eq_some.mp hj' with ⟨h, _⟩
    exact h
  have memOf : ∀ {L : List EditorBlock} {n : Nat} {y : EditorBlock},
      L[n]? = some y → y ∈ L := by
    intro L n y hy
    rcases List.getElem?_eq_some.mp hy with ⟨h, hv⟩
    exact hv ▸ List.getElem_mem h
  obtain ⟨k, hk, hkx⟩ := List.getElem_of_mem hx
  by_cases hki : k = i
  · subst hki
    have hxbi : x = bi := by
      rcases List.getElem?_eq_some.mp hi' with ⟨h, hv⟩
      rw [← hkx]
      exact hv
    rw [hxbi]
    refine memOf (n := j) ?_
    rw [List.getElem?_set_eq_of_lt]
    rwa [List.length_set]
  · by_cases hkj : k = j
    · subst hkj
      have hxbt : x = bt := by
        rcases List.getElem?_eq_some.mp hj' with ⟨h, hv⟩
        rw [← hkx]
        exact hv
      rw [hxbt]
      refine memOf (n := i) ?_
      rw [List.getElem?_set_ne (fun h => hij h.symm)]
      rw [List.getElem?_set_eq_of_lt]
      exact hil
    · refine memOf (n := k) ?_
      rw [List.getElem?_set_ne (fun h => hkj h.symm),
        List.getElem?_set_ne (fun h => hki h.symm), List.getElem?_eq_some]
      exact ⟨hk, hkx⟩

theorem moveBlock_activeOk {id : String} {d : MoveDir} {s s' : EditorState}
    (h : moveBlock id d s = some s') (hok : activeOkB s = true) : activeOkB s' = true := by
  simp only [moveBlock] at h
  split at h
  · injection h with h; subst h; exact hok
  · next hneg1 =>
    split at h
    · injection h with h; subst h; exact hok
    · next hneg2 =>
      split at h
      · injection h with h; subst h; exact hok
      · next hneg3 =>
        split at h
        · next bi bt hbi hbt =>
          injection h with h; subst h
          cases ha : s.activeBlockId with
          | none =>
            unfold activeOkB
            dsimp only
          | some i =>
            obtain ⟨b, hb, hbid⟩ := exists_of_activeOkB hok ha
            have hge0 : 0 ≤ findIdxInt s.blocks id := findIdxInt_nonneg_of_ne hneg1
            have hne : (findIdxInt s.blocks id).toNat ≠
                (if d = MoveDir.up then findIdxInt s.blocks id - 1
                  else findIdxInt s.blocks id + 1).toNat := by
              rcases d with _ | _
              · have hz : findIdxInt s.blocks id ≠ 0 := fun hz => hneg2 ⟨rfl, hz⟩
                rw [if_pos rfl]
                omega
              · rw [if_neg (by simp)]
                omega
            refine activeOkB_of_mem (b := b) ?_ (mem_set_swap hbi hbt hne hb)
            dsimp only
            rw [hbid]
        · cases h

theorem resetEditor_activeOk (fresh : Nat → String) (md : String) (fl : Bool)
    (s : EditorState) : activeOkB (resetEditor fresh md fl s) = true := by
  cases fl with
  | false => simp [resetEditor, activeOkB]
  | true =>
    cases hg : (parseMarkdownToBlocks fresh md).getLast? with
    | none => simp [resetEditor, activeOkB, hg]
    | some b =>
      have hb : b ∈ parseMarkdownToBlocks fresh md := List.mem_of_mem_getLast? hg
      refine activeOkB_of_mem (b := b) ?_ ?_
      · simp [resetEditor, hg]
      · simpa [resetEditor] using hb

theorem markAsSaved_activeOk {s : EditorState} (h : activeOkB s = true) :
    activeOkB (markAsSaved s) = true := h

theorem setActiveBlock_activeOk {id : Option String} {s : EditorState}
    (h : (match id with
      | none => true
      | some i => s.blocks.any (fun b => b.id = i)) = true) :
    activeOkB (setActiveBlock id s) = true := h

/-- C5 counterexample: `setActiveBlock` performs no validation, so an id
matching no block becomes `activeBlockId`, violating referential
integrity even though the starting state satisfied it. -/
theorem C5_active_ref_counterexample :
    activeOkB oneBlockState = true ∧
    (setActiveBlock (some "ghost") oneBlockState).activeBlockId = some "ghost" ∧
    activeOkB (setActiveBlock (some "ghost") oneBlockState) = false := by
  decide

/-- C5 (amended): after any single operation, `activeBlockId` is `null` or
the id of a block in `blocks`, provided `setActiveBlock` is only given
`null` or an id present in the list and `updateBlock`'s partial update
does not replace ids (for faulting operations, provided the call
returns). -/
theorem C5_active_ref_amended :
    (∀ id p s, p.id = none → activeOkB s = true → activeOkB (updateBlock id p s) = true) ∧
    (∀ nid t a d s, activeOkB (addBlock nid t a d s) = true) ∧
    (∀ id s s', removeBlock id s = some s' → activeOkB s = true → activeOkB s' = true) ∧
    (∀ id s s', mergeWithPrevious id s = some s' → activeOkB s = true →
      activeOkB s' = true) ∧
    (∀ id d s s', moveBlock id d s = some s' → activeOkB s = true → activeOkB s' = true) ∧
    (∀ fresh md fl s, activeOkB (resetEditor fresh md fl s) = true) ∧
    (∀ s, activeOkB s = true → activeOkB (markAsSaved s) = true) ∧
    (∀ id s, (match id with
      | none => true
      | some i => s.blocks.any (fun b => b.id = i)) = true →
      activeOkB (setActiveBlock id s) = true) :=
  ⟨fun _ _ _ hp h => updateBlock_activeOk hp h,
   fun _ _ _ _ _ => addBlock_activeOk,
   fun _ _ _ h hok => removeBlock_activeOk h hok,
   fun _ _ _ h hok => mergeWithPrevious_activeOk h hok,
   fun _ _ _ _ h hok => moveBlock_activeOk h hok,
   fun fresh md fl s => resetEditor_activeOk fresh md fl s,
   fun _ h => markAsSaved_activeOk h,
   fun _ _ h => setActiveBlock_activeOk h⟩

/-- The two-block sample with the first block focused. -/
def twoActiveState : EditorState :=
  { blocks := [blockA, blockB], activeBlockId := some "a", isDirty := false, lastSaved := none }

/-- The state after removing block `b` from `twoActiveState`. -/
def oneActiveDirtyState : EditorState :=
  { blocks := [blockA], activeBlockId := some "a", isDirty := true, lastSaved := none }

/-- Witness for C5 (amended) at concrete states and arguments. -/
theorem C5_active_ref_amended_witness :
    (BlockPatch.mk none (some "h1") none none).id = none ∧
    activeOkB twoActiveState = true ∧
    activeOkB (updateBlock "b" (BlockPatch.mk none (some "h1") none none) twoActiveState) =
      true ∧
    activeOkB (addBlock "c" "p" (some "a") none twoActiveState) = true ∧
    removeBlock "b" twoActiveState = some oneActiveDirtyState ∧
    activeOkB oneActiveDirtyState = true ∧
    (twoActiveState.blocks.any (fun b => b.id = "b")) = true ∧
    activeOkB (setActiveBlock (some "b") twoActiveState) = true := by
  have h := C5_active_ref_amended
  refine ⟨by decide, by decide,
    h.1 "b" (BlockPatch.mk none (some "h1") none none) twoActiveState (by decide) (by decide),
    h.2.1 "c" "p" (some "a") none twoActiveState,
    by decide,
    h.2.2.1 "b" twoActiveState _ (by decide) (by decide),
    by decide,
    h.2.2.2.2.2.2.2 (some "b") twoActiveState (by decide)⟩

/-- C10 counterexample: with `afterId = ""` (non-null, matching no block),
the JS-truthiness guard routes to the `afterId == null` path, so the new
block is appended at the end, not inserted at position 0. -/
theorem C10_addBlock_counterexample :
    some ("" : String) ≠ (none : Option String) ∧
    (∀ b ∈ oneBlockState.blocks, b.id ≠ "") ∧
    (addBlock "n" "p" (some "") none oneBlockState).blocks =
      [blockA, newBlockOf "n" "p" none] ∧
    (addBlock "n" "p" (some "") none oneBlockState).blocks.head? ≠
      some (newBlockOf "n" "p" none) := by
  decide

/-- C10 (amended): `addBlock` with a non-null, non-empty `afterId` matching
no block inserts the new block at position 0, makes it active, and sets
the dirty flag. -/
theorem C10_addBlock_amended (s : EditorState) (nid t a : String) (d : Option InitData)
    (ha : a ≠ "") (habs : ∀ b ∈ s.blocks, b.id ≠ a) :
    (addBlock nid t (some a) d s).blocks = newBlockOf nid t d :: s.blocks ∧
    (addBlock nid t (some a) d s).activeBlockId = some nid ∧
    (addBlock nid t (some a) d s).isDirty = true := by
  unfold addBlock
  simp only [findIdxInt_absent habs, if_neg ha]
  norm_num [spliceInsert]

/-- Witness for C10 (amended) at a concrete state and arguments. -/
theorem C10_addBlock_amended_witness :
    ("zzz" : String) ≠ "" ∧
    (∀ b ∈ twoBlockState.blocks, b.id ≠ "zzz") ∧
    (addBlock "n" "p" (some "zzz") none twoBlockState).blocks =
      newBlockOf "n" "p" none :: twoBlockState.blocks ∧
    (addBlock "n" "p" (some "zzz") none twoBlockState).activeBlockId = some "n" ∧
    (addBlock "n" "p" (some "zzz") none twoBlockState).isDirty = true := by
  have h := C10_addBlock_amended twoBlockState "n" "p" "zzz" none (by decide) (by decide)
  exact ⟨by decide, by decide, h.1, h.2.1, h.2.2⟩

/-! ## Conversion-engine claims -/

/-- C6: parsing `"- [ ] A\n- [x] B\n- [/] C"` yields exactly three checkbox
blocks with statuses `todo`, `done`, `in_progress` and contents `A`, `B`,
`C`; serializing that list reproduces the input string exactly. -/
theorem C6_checkbox_states_round_trip (fresh : Nat → String) :
    stripAll (parseMarkdownToBlocks fresh "- [ ] A\n- [x] B\n- [/] C") =
      [("checkbox", "A", some (MetaVal.status "todo")),
       ("checkbox", "B", some (MetaVal.status "done")),
       ("checkbox", "C", some (MetaVal.status "in_progress"))] ∧
    blocksToMarkdown (parseMarkdownToBlocks fresh "- [ ] A\n- [x] B\n- [/] C") =
      "- [ ] A\n- [x] B\n- [/] C" :=
  ⟨rfl, rfl⟩

/-- C7: parsing the empty string yields exactly one empty paragraph block;
more generally, whenever token processing produces no block the parser
returns that single block, so every parse result is nonempty. -/
theorem C7_empty_parse_fallback (fresh : Nat → String) (s : String) :
    stripAll (parseMarkdownToBlocks fresh "") = [("p", "", none)] ∧
    (parseMarkdownToBlocks fresh "").length = 1 ∧
    (processTokens fresh 0 (lexMarkdown s) = [] →
      parseMarkdownToBlocks fresh s =
        [{ id := fresh 0, btype := "p", content := "", metadata := none }]) ∧
    parseMarkdownToBlocks fresh s ≠ [] := by
  refine ⟨rfl, rfl, ?_, ?_⟩
  · intro h
    simp [parseMarkdownToBlocks, h]
  · simp only [parseMarkdownToBlocks]
    split
    · simp
    · next h => simpa [List.isEmpty_iff] using h

/-- Witness for C7 at a concrete id supply and the empty input. -/
theorem C7_empty_parse_fallback_witness :
    processTokens (fun n => toString n) 0 (lexMarkdown "") = [] ∧
    parseMarkdownToBlocks (fun n => toString n) "" =
      [{ id := "0", btype := "p", content := "", metadata := none }] := by
  have h := C7_empty_parse_fallback (fun n => toString n) ""
  exact ⟨by decide, h.2.2.1 (by decide)⟩

/-- C8: on input `"#### x"` the parser produces a block whose `type` is the
string `"h4"`, which is not a member of the declared twelve-type
`BlockType` union — the `as BlockType` cast in the heading case is
unchecked, contradicting the source's own type declaration. -/
theorem C8_heading_depth_four_escapes_union (fresh : Nat → String) :
    (parseMarkdownToBlocks fresh "#### x").map (fun b => b.btype) = ["h4"] ∧
    validBlockTypes.contains "h4" = false :=
  ⟨rfl, rfl⟩

/-- The unordered-list sample block of the C9 scenario. -/
def ulBlockX : EditorBlock :=
  { id := "u1", btype := "ul", content := "x", metadata := none }

/-- The image sample block of the C9 scenario. -/
def imageBlockCap : EditorBlock :=
  { id := "i1", btype := "image", content := "cap", metadata := some (MetaVal.src "abc") }

/-- C9: an image block immediately preceded by a list block gets an extra
blank line before its emission; a list block whose successor exists and is
neither list nor image gets an extra blank line after it; and the concrete
two-block scenario serializes with a blank line between list item and
image. -/
theorem C9_image_adjacency_spacing :
    (∀ prevB b next, b.btype = "image" → isListType prevB.btype = true →
      chunkOf (some prevB) b next = "\n" ++ chunkOf none b next) ∧
    (∀ prev b nb, isListType b.btype = true → isListType nb.btype = false →
      nb.btype ≠ "image" →
      chunkOf prev b (some nb) = chunkOf prev b none ++ "\n") ∧
    blocksToMarkdown [ulBlockX, imageBlockCap] = "- x\n\n![cap](abc)" := by
  refine ⟨?_, ?_, by decide⟩
  · intro prevB b next h1 h2
    simp [chunkOf, h1, h2, String.append_assoc]
  · intro prev b nb h1 h2 h3
    simp [chunkOf, h1, h2, h3, String.append_assoc]

/-- Witness for C9 at the concrete scenario blocks. -/
theorem C9_image_adjacency_spacing_witness :
    imageBlockCap.btype = "image" ∧
    isListType ulBlockX.btype = true ∧
    chunkOf (some ulBlockX) imageBlockCap none =
      "\n" ++ chunkOf none imageBlockCap none ∧
    isListType blockA.btype = false ∧
    blockA.btype ≠ "image" ∧
    chunkOf none ulBlockX (some blockA) = chunkOf none ulBlockX none ++ "\n" := by
  have h := C9_image_adjacency_spacing
  exact ⟨by decide, by decide,
    h.1 ulBlockX imageBlockCap none (by decide) (by decide),
    by decide, by decide,
    h.2.1 none ulBlockX blockA (by decide) (by decide) (by decide)⟩

/-! ## C1: round-trip idempotence

First the refutation: depth-4 headings round through type `"h4"`, which
`blocksToMarkdown` serializes via the default (paragraph) case, losing the
heading marker, so the second parse yields a paragraph. -/

/-- Concatenate lines, terminating every line (including the last) with a
newline — the shape of the serializer's raw output. -/
def flattenNL : List (List Char) → List Char
  | [] => []
  | l :: ls => l ++ '\n' :: flattenNL ls

theorem splitLines_cons (c : Char) (cs : List Char) :
    splitLines (c :: cs) =
      match splitLines cs with
      | [] => [[]]
      | l :: ls => if c = '\n' then [] :: l :: ls else (c :: l) :: ls := rfl

theorem splitLines_ne_nil (l : List Char) : splitLines l ≠ [] := by
  cases l with
  | nil => simp [splitLines]
  | cons c cs =>
    rw [splitLines_cons]
    cases splitLines cs with
    | nil => simp
    | cons m ms =>
      dsimp only
      split <;> simp

theorem splitLines_append_cons {l : List Char} (h : '\n' ∉ l) (rest : List Char) :
    splitLines (l ++ '\n' :: rest) = l :: splitLines rest := by
  induction l with
  | nil =>
    show splitLines ('\n' :: rest) = [] :: splitLines rest
    rw [splitLines_cons]
    cases hs : splitLines rest with
    | nil => exact absurd hs (splitLines_ne_nil rest)
    | cons m ms => simp
  | cons c cs ih =>
    have hc : c ≠ '\n' := fun hc => h (hc ▸ List.mem_cons_self c cs)
    have hcs : '\n' ∉ cs := fun hm => h (List.mem_cons_of_mem c hm)
    show splitLines (c :: (cs ++ '\n' :: rest)) = _
    rw [splitLines_cons, ih hcs]
    dsimp only
    rw [if_neg hc]

theorem splitLines_flattenNL (L : List (List Char)) (h : ∀ l ∈ L, '\n' ∉ l) :
    splitLines (flattenNL L) = L ++ [[]] := by
  induction L with
  | nil => rfl
  | cons l ls ih =>
    show splitLines (l ++ '\n' :: flattenNL ls) = _
    rw [splitLines_append_cons (h l (by simp)), ih (fun x hx => h x (by simp [hx]))]
    rfl

theorem isPrefixOf_append_of_le {p a : List Char} (x : List Char)
    (h : p.length ≤ a.length) : p.isPrefixOf (a ++ x) = p.isPrefixOf a := by
  induction p generalizing a with
  | nil => simp [List.isPrefixOf]
  | cons pc ps ih =>
    cases a with
    | nil => simp at h
    | cons ac as =>
      show ((pc == ac) && ps.isPrefixOf (as ++ x)) = ((pc == ac) && ps.isPrefixOf as)
      rw [ih (by simpa using h)]

theorem isPrefixOf_head_ne {a b : Char} (ps ls : List Char) (h : a ≠ b) :
    List.isPrefixOf (a :: ps) (b :: ls) = false := by
  show ((a == b) && ps.isPrefixOf ls) = false
  rw [beq_eq_false_iff_ne.mpr h]
  rfl

/-- Lex a list of lines starting from an arbitrary open group. -/
def lexFrom (st : LexState) (ls : List String) : List Token :=
  let r := ls.foldl lexStep ([], st)
  r.1 ++ flushState r.2

/-- `lexStep` only ever appends to the token accumulator. -/
theorem lexStep_acc (ts : List Token) (st : LexState) (l : String) :
    lexStep (ts, st) l =
      (ts ++ (lexStep ([], st) l).1, (lexStep ([], st) l).2) := by
  cases st with
  | code lang ls =>
    show (if isCloseFence l then _ else _) = _
    by_cases hf : isCloseFence l = true
    · simp [lexStep, hf]
    · simp [lexStep, hf]
  | idle => cases hcl : classify l <;> simp [lexStep, hcl]
  | para ls => cases hcl : classify l <;> simp [lexStep, hcl]
  | quote ls => cases hcl : classify l <;> simp [lexStep, hcl]
  | dashList its => cases hcl : classify l <;> simp [lexStep, hcl]
  | starList its => cases hcl : classify l <;> simp [lexStep, hcl]
  | olist its => cases hcl : classify l <;> simp [lexStep, hcl]

theorem foldl_lexStep_acc (lines : List String) (ts : List Token) (st : LexState) :
    lines.foldl lexStep (ts, st) =
      (ts ++ (lines.foldl lexStep ([], st)).1, (lines.foldl lexStep ([], st)).2) := by
  induction lines generalizing ts st with
  | nil => simp
  | cons l ls ih =>
    rw [List.foldl_cons, List.foldl_cons, lexStep_acc ts st l,
      ih (ts ++ (lexStep ([], st) l).1) (lexStep ([], st) l).2,
      ih (lexStep ([], st) l).1 (lexStep ([], st) l).2]
    rw [lexStep_acc [] st l]
    simp

theorem lexFrom_append (st : LexState) (L₁ L₂ : List String) :
    lexFrom st (L₁ ++ L₂) =
      (L₁.foldl lexStep ([], st)).1 ++ lexFrom (L₁.foldl lexStep ([], st)).2 L₂ := by
  show (((L₁ ++ L₂).foldl lexStep ([], st)).1 ++ _ : List Token) = _
  rw [List.foldl_append, foldl_lexStep_acc L₂ (L₁.foldl lexStep ([], st)).1
    (L₁.foldl lexStep ([], st)).2]
  simp [lexFrom]

theorem ne_of_data_ne {s t : String} (h : s.data ≠ t.data) : s ≠ t :=
  fun he => h (congrArg String.data he)

theorem jsStartsWith_false_of_head {l pre : String} {a b : Char} {d pd : List Char}
    (h : l.data = a :: d) (hp : pre.data = b :: pd) (hab : b ≠ a) :
    jsStartsWith l pre = false := by
  unfold jsStartsWith
  rw [h, hp]
  exact isPrefixOf_head_ne _ _ hab

theorem imageOfLine_none_of_head {l : String} {a : Char} {d : List Char}
    (h : l.data = a :: d) (ha : a ≠ '!') : imageOfLine l = none := by
  unfold imageOfLine
  rw [if_neg]
  intro hcon
  rw [jsStartsWith_false_of_head h rfl (Ne.symm ha)] at hcon
  exact Bool.false_ne_true hcon.1

theorem append_congr_left {a b : String} (c : String) (h : a = b) : a ++ c = b ++ c := by
  rw [h]

